import Mathlib

/-!
# The album store of `main.go`

A shallow embedding of the five request handlers of `main.go` (`postAlbums`, `getAlbums`,
`getAlbumByID`, `updateAlbums`, `deleteAlbums`), of the helper `fillNewAlbumFromRequest`
and of the `sort.Interface` methods of `AlbumSlice`.

* The package-level variable `albums` is threaded through every handler: a handler is a
  function of the request context and of the store, and gives back both.
* A Go slice is a `List`; the nil slice and the empty slice are both `[]`.
* An index out of range is a run-time panic in Go: `Less` and `Swap` return `none` there.
* `*gin.Context` and `sort.Sort` belong to libraries, not to this program. The part of them
  that the handlers use is written out below, each piece under the name it has in its
  library, and is kept apart from the definitions that embed `main.go`.
-/

namespace GinAlbums

/-! ## Data model (`main.go`, lines 12-33) -/

/-- The record `album`. `Price` is a `float64` in the source: the program stores, copies and
renders prices and never computes with them or compares them, and a price that reaches the
store (a Go literal or a decoded JSON number) is finite, so it is held as a rational. -/
structure album where
  ID : String
  Title : String
  Artist : String
  Price : Rat
deriving DecidableEq

/-- The zero value `album{}`: three empty strings and price 0. -/
def album.zero : album := ⟨"", "", "", 0⟩

/-- The type `AlbumSlice`, `[]album`. -/
abbrev AlbumSlice := List album

/-- The method `Len`: `len(a)`. -/
def AlbumSlice.Len (a : AlbumSlice) : Nat := a.length

/-- The method `Less`: `a[i].ID < a[j].ID`, the order of Go strings (lexicographic).
`none` is the panic of an index out of range. -/
def AlbumSlice.Less (a : AlbumSlice) (i j : Nat) : Option Bool :=
  match a[i]?, a[j]? with
  | some x, some y => some (decide (x.ID < y.ID))
  | _, _ => none

/-- The method `Swap`: `a[i], a[j] = a[j], a[i]`. Both right-hand sides are read before
either assignment. `none` is the panic of an index out of range. -/
def AlbumSlice.Swap (a : AlbumSlice) (i j : Nat) : Option AlbumSlice :=
  match a[i]?, a[j]? with
  | some x, some y => some ((a.set i y).set j x)
  | _, _ => none

/-! ## Library: `sort.Sort`

`sort.Sort(data)` reaches `data` only through `Len`, `Less` and `Swap`. For a slice of at
most 12 elements the library (Go 1.19 and later) runs `insertionSort(data, 0, n)` and
nothing else; that
procedure is embedded here, over the three methods above, and stands for `sort.Sort` at
every length. On longer slices the library switches to a quicksort with the same contract
(a permutation in ascending `Less` order, equal keys in no promised order); every result
below that speaks of the sorted store uses the model only through that contract or on
stores whose ids are distinct, where the contract fixes the result. -/

/-- The inner loop of `insertionSort`:
`for j := i; j > a && data.Less(j, j-1); j-- { data.Swap(j, j-1) }`, started at `j`. -/
def insertionSort.inner (a : Nat) : AlbumSlice → Nat → Option AlbumSlice
  | data, 0 => some data
  | data, j + 1 =>
    if j + 1 > a then
      match AlbumSlice.Less data (j + 1) j with
      | none => none
      | some false => some data
      | some true =>
        match AlbumSlice.Swap data (j + 1) j with
        | none => none
        | some data1 => insertionSort.inner a data1 j
    else some data

/-- The outer loop of `insertionSort`, `for i := a + 1; i < b; i++`, started at `i` with
`n` iterations left (`n = b - i`). -/
def insertionSort.outer (a : Nat) : AlbumSlice → Nat → Nat → Option AlbumSlice
  | data, _, 0 => some data
  | data, i, n + 1 =>
    match insertionSort.inner a data i with
    | none => none
    | some data1 => insertionSort.outer a data1 (i + 1) n

/-- The library procedure `insertionSort(data, a, b)`. -/
def insertionSort (data : AlbumSlice) (a b : Nat) : Option AlbumSlice :=
  insertionSort.outer a data (a + 1) (b - (a + 1))

/-- The library procedure `sort.Sort(data)`: `n := data.Len()`, nothing to do when `n <= 1`,
else the sort of the range `[0, n)`. The slice is sorted in place: the result is the new
content of the array that `data` shares with its caller. -/
def sort_Sort (data : AlbumSlice) : Option AlbumSlice :=
  let n := AlbumSlice.Len data
  if n ≤ 1 then some data else insertionSort data 0 n

/-! ## Library: `*gin.Context`

The request side is the route parameter and the request body; the response side is the
response writer. The body is a stream: a decoding consumes what it reads, so the body is
held as the outcomes of the successive decodings that can be made of it, and a request that
carries one JSON document has one outcome. Decoding an exhausted body fails with `EOF`. -/

/-- What a handler hands to `IndentedJSON`: one album, a slice of albums, or a `gin.H` map. -/
inductive Data where
  | one (a : album)
  | many (as : AlbumSlice)
  | H (kv : List (String × String))
deriving DecidableEq

/-- The request context. `id` is the route parameter, `body` the decodings left in the
request body, `status` the status held by the response writer, `sent` the status line
already written to the client if any, `out` the values written to the response body. -/
structure Context where
  id : String
  body : List (Except String album)
  status : Nat
  sent : Option Nat
  out : List Data

/-- The context of a request as the router hands it to a handler: status 200, nothing
written yet. -/
def Context.new (id : String) (body : List (Except String album)) : Context :=
  ⟨id, body, 200, none, []⟩

/-- The method `c.Param(key)`; the routes of `main` bind the one parameter `id`. -/
def Context.Param (c : Context) (key : String) : String :=
  if key = "id" then c.id else ""

/-- The response writer's `WriteHeader(code)`: sets the status, unless the header has
already been written. -/
def Context.WriteHeader (c : Context) (code : Nat) : Context :=
  if code > 0 ∧ c.status ≠ code then
    if c.sent.isSome then c else { c with status := code }
  else c

/-- The response writer's `WriteHeaderNow()`: writes the status line once. -/
def Context.WriteHeaderNow (c : Context) : Context :=
  if c.sent.isSome then c else { c with sent := some c.status }

/-- The library predicate `bodyAllowedForStatus`. -/
def bodyAllowedForStatus (status : Nat) : Bool :=
  if 100 ≤ status ∧ status ≤ 199 then false
  else if status = 204 then false
  else if status = 304 then false
  else true

/-- The method `c.IndentedJSON(code, obj)`: sets the status and writes `obj` to the body
(writing the header first if it has not been written). -/
def Context.IndentedJSON (c : Context) (code : Nat) (obj : Data) : Context :=
  let c1 := c.WriteHeader code
  if bodyAllowedForStatus code then
    let c2 := c1.WriteHeaderNow
    { c2 with out := c2.out ++ [obj] }
  else c1.WriteHeaderNow

/-- The method `c.AbortWithError(code, err)`, as far as the response shows it: sets the
status and writes the header. -/
def Context.AbortWithError (c : Context) (code : Nat) : Context :=
  (c.WriteHeader code).WriteHeaderNow

/-- The method `c.BindJSON(&obj)` on a zero-valued `obj`: decodes the next JSON document of
the body. It gives the decoded album and a nil error, or an error, in which case it has
aborted the request with status 400. -/
def Context.BindJSON (c : Context) : (album × Option String) × Context :=
  match c.body with
  | [] => ((album.zero, some "EOF"), c.AbortWithError 400)
  | Except.ok a :: rest => ((a, none), { c with body := rest })
  | Except.error e :: rest =>
    ((album.zero, some e), { c.AbortWithError 400 with body := rest })

/-! ## The program (`main.go`, lines 35-124) -/

/-- The helper `fillNewAlbumFromRequest`: the album decoded from the body and the error. When
`BindJSON` fails the source returns `album{}, nil`. -/
def fillNewAlbumFromRequest (c : Context) : (album × Option String) × Context :=
  match c.BindJSON with
  | ((newAlbum, err), c1) =>
    match err with
    | some _ => ((album.zero, none), c1)
    | none => ((newAlbum, err), c1)

/-- The handler `postAlbums`. -/
def postAlbums (c : Context) (albums : AlbumSlice) : Context × AlbumSlice :=
  match fillNewAlbumFromRequest c with
  | ((newAlbum, err), c1) =>
    match err with
    | some _ => (c1, albums)
    | none => (c1.IndentedJSON 201 (Data.one newAlbum), albums ++ [newAlbum])

/-- The handler `getAlbums`: `sort.Sort(albums)` sorts the array of the package variable in
place, then the variable is rendered. `none` is a panic inside the sort. -/
def getAlbums (c : Context) (albums : AlbumSlice) : Option (Context × AlbumSlice) :=
  match sort_Sort albums with
  | none => none
  | some albums1 => some (c.IndentedJSON 200 (Data.many albums1), albums1)

/-- The loop of `getAlbumByID`: `some` is the context after the `return` inside the loop,
`none` means the loop ran to its end. -/
def getAlbumByID.loop (c : Context) (id : String) : List album → Option Context
  | [] => none
  | a :: rest =>
    if a.ID = id then some (c.IndentedJSON 200 (Data.one a))
    else getAlbumByID.loop c id rest

/-- The handler `getAlbumByID`. -/
def getAlbumByID (c : Context) (albums : AlbumSlice) : Context × AlbumSlice :=
  let id := c.Param "id"
  match getAlbumByID.loop c id albums with
  | some c1 => (c1, albums)
  | none => (c.IndentedJSON 404 (Data.H [("message", "album not found")]), albums)

/-- The loop of `updateAlbums` over the albums still to visit, with the slice
`updatedAlbums` built so far. The first component is `none` when the loop left the handler
through `return`. -/
def updateAlbums.loop (id : String) :
    Context → List album → List album → Option (List album) × Context
  | c, [], updatedAlbums => (some updatedAlbums, c)
  | c, a :: rest, updatedAlbums =>
    if a.ID ≠ id then updateAlbums.loop id c rest (updatedAlbums ++ [a])
    else
      match fillNewAlbumFromRequest c with
      | ((updatedAlbum, err), c1) =>
        match err with
        | some _ => (none, c1)
        | none =>
          updateAlbums.loop id c1 rest (updatedAlbums ++ [{ updatedAlbum with ID := id }])

/-- The handler `updateAlbums`: `albums = updatedAlbums` is reached unless the loop
returned. -/
def updateAlbums (c : Context) (albums : AlbumSlice) : Context × AlbumSlice :=
  let id := c.Param "id"
  match updateAlbums.loop id c albums [] with
  | (some updatedAlbums, c1) => (c1, updatedAlbums)
  | (none, c1) => (c1, albums)

/-- The loop of `deleteAlbums`, with the slice `newAlbumSlice` built so far. -/
def deleteAlbums.loop (id : String) : List album → List album → List album
  | [], newAlbumSlice => newAlbumSlice
  | a :: rest, newAlbumSlice =>
    if a.ID ≠ id then deleteAlbums.loop id rest (newAlbumSlice ++ [a])
    else deleteAlbums.loop id rest newAlbumSlice

/-- The handler `deleteAlbums`. -/
def deleteAlbums (c : Context) (albums : AlbumSlice) : Context × AlbumSlice :=
  let id := c.Param "id"
  let newAlbumSlice := deleteAlbums.loop id albums []
  (c.IndentedJSON 200 (Data.many newAlbumSlice), newAlbumSlice)

/-- The store installed by `init`. -/
def init : AlbumSlice :=
  [ ⟨"1", "Blue Train", "John Coltrane", 56.99⟩,
    ⟨"2", "Jeru", "Gerry Mulligan", 17.99⟩,
    ⟨"3", "Sarah Vaughan and Clifford Brown", "Sarah Vaughan", 39.99⟩ ]

/-! ## Reading a response -/

/-- The response the client has received: the status line written and the values written to
the body. -/
def Context.response (c : Context) : Option Nat × List Data := (c.sent, c.out)


/-! ## Predicates used in the statements -/

/-- Ascending order of ids over a whole slice: every earlier id is at most every later one. -/
def SortedByID (s : List album) : Prop := s.Pairwise (fun a b => a.ID ≤ b.ID)

/-- Uniqueness of ids: no two positions of the store carry the same id. -/
def UniqueIDs (s : AlbumSlice) : Prop := (s.map (fun a => a.ID)).Nodup

/-! ## The sort -/

theorem Less_at (L : List album) (p x : album) (T : List album) :
    AlbumSlice.Less (L ++ p :: x :: T) (L.length + 1) L.length = some (decide (x.ID < p.ID)) := by
  have h1 : (L ++ p :: x :: T)[L.length + 1]? = some x := by
    rw [List.getElem?_append_right (by omega)]
    simp
  have h0 : (L ++ p :: x :: T)[L.length]? = some p := by
    rw [List.getElem?_append_right (by omega)]
    simp
  simp [AlbumSlice.Less, h1, h0]

theorem Swap_at (L : List album) (p x : album) (T : List album) :
    AlbumSlice.Swap (L ++ p :: x :: T) (L.length + 1) L.length = some (L ++ x :: p :: T) := by
  have h1 : (L ++ p :: x :: T)[L.length + 1]? = some x := by
    rw [List.getElem?_append_right (by omega)]
    simp
  have h0 : (L ++ p :: x :: T)[L.length]? = some p := by
    rw [List.getElem?_append_right (by omega)]
    simp
  simp [AlbumSlice.Swap, h1, h0, List.set_append]


theorem inner_spec (P : List album) (x : album) (T : List album) :
    ∃ A B, insertionSort.inner 0 (P.reverse ++ x :: T) P.length = some (A ++ x :: (B ++ T))
      ∧ A ++ B = P.reverse ∧ (∀ b ∈ B, x.ID < b.ID)
      ∧ (∀ a, A.getLast? = some a → ¬ x.ID < a.ID) := by
  induction P generalizing T with
  | nil => exact ⟨[], [], by simp [insertionSort.inner]⟩
  | cons p P ih =>
    have hshape : (p :: P).reverse ++ x :: T = P.reverse ++ p :: x :: T := by simp
    have hlen : (p :: P).length = P.reverse.length + 1 := by simp
    rw [hshape, hlen, insertionSort.inner, if_pos (Nat.succ_pos _), Less_at]
    by_cases hlt : x.ID < p.ID
    · obtain ⟨A, B, hrun, hAB, hB, hA⟩ := ih (p :: T)
      refine ⟨A, B ++ [p], ?_, ?_, ?_, hA⟩
      · simp only [hlt, decide_True, Swap_at]
        rw [List.length_reverse, hrun]
        simp
      · rw [← List.append_assoc, hAB]; simp
      · intro b hb
        rcases List.mem_append.mp hb with h | h
        · exact hB b h
        · simp at h; subst h; exact hlt
    · refine ⟨P.reverse ++ [p], [], ?_, by simp, by simp, ?_⟩
      · simp [hlt]
      · intro a ha
        simp at ha
        subst ha
        exact hlt

theorem inner_sorted (A : List album) (x : album) (R : List album) (hA : SortedByID A) :
    ∃ A1, insertionSort.inner 0 (A ++ x :: R) A.length = some (A1 ++ R)
      ∧ SortedByID A1 ∧ A1.Perm (A ++ [x]) := by
  obtain ⟨U, V, hrun, hUV, hV, hU⟩ := inner_spec A.reverse x R
  rw [List.reverse_reverse, List.length_reverse] at hrun
  rw [List.reverse_reverse] at hUV
  refine ⟨U ++ x :: V, ?_, ?_, ?_⟩
  · rw [hrun]; simp
  · subst hUV
    unfold SortedByID at hA ⊢
    rw [List.pairwise_append] at hA ⊢
    obtain ⟨hUs, hVs, hcross⟩ := hA
    refine ⟨hUs, ?_, ?_⟩
    · rw [List.pairwise_cons]
      exact ⟨fun b hb => le_of_lt (hV b hb), hVs⟩
    · intro a ha b hb
      have hax : a.ID ≤ x.ID := by
        rcases List.eq_nil_or_concat U with h | ⟨U1, l, h⟩
        · subst h; simp at ha
        · rw [List.concat_eq_append] at h
          subst h
          have hl : ¬ x.ID < l.ID := hU l (by simp)
          have hlx : l.ID ≤ x.ID := not_lt.mp hl
          rcases List.mem_append.mp ha with h1 | h1
          · have := (List.pairwise_append.mp hUs).2.2 a h1 l (by simp)
            exact le_trans this hlx
          · simp at h1; subst h1; exact hlx
      rcases List.mem_cons.mp hb with h | h
      · subst h; exact hax
      · exact hcross a ha b h
  · subst hUV
    simp only [List.append_assoc]
    refine List.Perm.append_left U ?_
    simpa using (List.perm_append_singleton x V).symm


theorem outer_sorted (R : List album) :
    ∀ A : List album, SortedByID A →
      ∃ S, insertionSort.outer 0 (A ++ R) A.length R.length = some S
        ∧ SortedByID S ∧ S.Perm (A ++ R) := by
  induction R with
  | nil =>
    intro A hA
    exact ⟨A, by simp [insertionSort.outer], hA, by simp⟩
  | cons x R ih =>
    intro A hA
    obtain ⟨A1, hrun, hA1, hperm⟩ := inner_sorted A x R hA
    obtain ⟨S, hS, hsorted, hSperm⟩ := ih A1 hA1
    have hlen : A1.length = A.length + 1 := by simpa using hperm.length_eq
    refine ⟨S, ?_, hsorted, ?_⟩
    · rw [List.length_cons, insertionSort.outer, hrun]
      rw [hlen] at hS
      exact hS
    · refine hSperm.trans ?_
      have := hperm.append_right R
      simpa using this

theorem sort_Sort_spec (data : AlbumSlice) :
    ∃ S, sort_Sort data = some S ∧ SortedByID S ∧ S.Perm data := by
  unfold sort_Sort
  by_cases hn : AlbumSlice.Len data ≤ 1
  · refine ⟨data, by simp [hn], ?_, List.Perm.refl _⟩
    unfold AlbumSlice.Len at hn
    match data, hn with
    | [], _ => exact List.Pairwise.nil
    | [a], _ => exact List.pairwise_singleton _ a
  · match data, hn with
    | [], h => simp [AlbumSlice.Len] at h
    | a :: R, h =>
      obtain ⟨S, hS, hsorted, hperm⟩ := outer_sorted R [a] (List.pairwise_singleton _ a)
      refine ⟨S, ?_, hsorted, by simpa using hperm⟩
      simp only [h, if_false, insertionSort]
      simpa [AlbumSlice.Len] using hS


/-! ## The handlers: auxiliary facts -/

theorem IndentedJSON_out (c : Context) (code : Nat) (obj : Data)
    (h : bodyAllowedForStatus code = true) :
    (c.IndentedJSON code obj).out = c.out ++ [obj] := by
  unfold Context.IndentedJSON Context.WriteHeaderNow Context.WriteHeader
  simp only [h, if_true]
  split <;> split <;> rfl

theorem IndentedJSON_new (id : String) (body : List (Except String album)) (code : Nat)
    (obj : Data) (hpos : 0 < code) (h : bodyAllowedForStatus code = true) :
    ((Context.new id body).IndentedJSON code obj).response = (some code, [obj]) := by
  unfold Context.IndentedJSON Context.WriteHeaderNow Context.WriteHeader Context.response
    Context.new
  simp only [h, if_true]
  by_cases hc : (200 : Nat) = code
  · subst hc; simp
  · simp [hc, hpos]

theorem loop_none_iff (c : Context) (id : String) (s : List album) :
    getAlbumByID.loop c id s = none ↔ ∀ a ∈ s, a.ID ≠ id := by
  induction s with
  | nil => simp [getAlbumByID.loop]
  | cons a s ih =>
    by_cases h : a.ID = id
    · simp [getAlbumByID.loop, h]
    · simp [getAlbumByID.loop, h, ih]

theorem loop_first (c : Context) (id : String) (pre : List album) (a : album)
    (post : List album) (hpre : ∀ b ∈ pre, b.ID ≠ id) (ha : a.ID = id) :
    getAlbumByID.loop c id (pre ++ a :: post) = some (c.IndentedJSON 200 (Data.one a)) := by
  induction pre with
  | nil => simp [getAlbumByID.loop, ha]
  | cons b pre ih =>
    have hb : b.ID ≠ id := hpre b (by simp)
    have := ih (fun x hx => hpre x (by simp [hx]))
    simp [getAlbumByID.loop, hb, this]

theorem delete_loop_eq (id : String) (s acc : List album) :
    deleteAlbums.loop id s acc = acc ++ s.filter (fun a => decide (a.ID ≠ id)) := by
  induction s generalizing acc with
  | nil => simp [deleteAlbums.loop]
  | cons a s ih =>
    by_cases h : a.ID = id
    · simp [deleteAlbums.loop, h, ih]
    · simp [deleteAlbums.loop, h, ih]

theorem update_loop_no_match (id : String) (c : Context) (s acc : List album)
    (h : ∀ a ∈ s, a.ID ≠ id) :
    updateAlbums.loop id c s acc = (some (acc ++ s), c) := by
  induction s generalizing acc with
  | nil => simp [updateAlbums.loop]
  | cons a s ih =>
    have ha : a.ID ≠ id := h a (by simp)
    have := ih (acc ++ [a]) (fun x hx => h x (by simp [hx]))
    simp [updateAlbums.loop, ha, this]

theorem fill_ok (c : Context) (r : album) (rest : List (Except String album))
    (hb : c.body = Except.ok r :: rest) :
    fillNewAlbumFromRequest c = ((r, none), { c with body := rest }) := by
  simp [fillNewAlbumFromRequest, Context.BindJSON, hb]

theorem update_loop_one_match (id : String) (c : Context) (r : album)
    (rest : List (Except String album)) (hb : c.body = Except.ok r :: rest)
    (pre : List album) (a : album) (post acc : List album)
    (hpre : ∀ b ∈ pre, b.ID ≠ id) (ha : a.ID = id) (hpost : ∀ b ∈ post, b.ID ≠ id) :
    updateAlbums.loop id c (pre ++ a :: post) acc
      = (some (acc ++ pre ++ { r with ID := id } :: post), { c with body := rest }) := by
  induction pre generalizing acc with
  | nil =>
    simp [updateAlbums.loop, ha, fill_ok c r rest hb, update_loop_no_match _ _ _ _ hpost]
  | cons b pre ih =>
    have hbne : b.ID ≠ id := hpre b (by simp)
    have := ih (acc ++ [b]) (fun x hx => hpre x (by simp [hx]))
    simp [updateAlbums.loop, hbne, this]


theorem getAlbumByID_store (c : Context) (albums : AlbumSlice) :
    (getAlbumByID c albums).2 = albums := by
  simp only [getAlbumByID]
  cases getAlbumByID.loop c (c.Param "id") albums <;> rfl

theorem getAlbumByID_found (id : String) (body : List (Except String album))
    (pre : List album) (a : album) (post : List album)
    (hpre : ∀ b ∈ pre, b.ID ≠ id) (ha : a.ID = id) :
    (getAlbumByID (Context.new id body) (pre ++ a :: post)).1.response
      = (some 200, [Data.one a]) := by
  have hid : (Context.new id body).Param "id" = id := by simp [Context.Param, Context.new]
  simp only [getAlbumByID, hid, loop_first _ id pre a post hpre ha]
  exact IndentedJSON_new id body 200 _ (by decide) rfl

theorem loop_some (c : Context) (id : String) (s : List album) (c1 : Context)
    (h : getAlbumByID.loop c id s = some c1) :
    ∃ b, c1 = c.IndentedJSON 200 (Data.one b) := by
  induction s with
  | nil => simp [getAlbumByID.loop] at h
  | cons b s ih =>
    by_cases hb : b.ID = id
    · simp [getAlbumByID.loop, hb] at h
      exact ⟨b, h.symm⟩
    · simp only [getAlbumByID.loop, hb, if_false] at h
      exact ih h

theorem getAlbumByID_not_found_iff (id : String) (body : List (Except String album))
    (albums : AlbumSlice) :
    (getAlbumByID (Context.new id body) albums).1.response
        = (some 404, [Data.H [("message", "album not found")]])
      ↔ ∀ a ∈ albums, a.ID ≠ id := by
  have hid : (Context.new id body).Param "id" = id := by simp [Context.Param, Context.new]
  constructor
  · intro h
    cases hloop : getAlbumByID.loop (Context.new id body) id albums with
    | none => exact (loop_none_iff _ id albums).mp hloop
    | some c1 =>
      obtain ⟨b, hb⟩ := loop_some _ id albums c1 hloop
      simp only [getAlbumByID, hid, hloop, hb] at h
      rw [IndentedJSON_new id body 200 _ (by decide) rfl] at h
      simp at h
  · intro h
    have hloop := (loop_none_iff (Context.new id body) id albums).mpr h
    simp only [getAlbumByID, hid, hloop]
    exact IndentedJSON_new id body 404 _ (by decide) rfl

theorem postAlbums_ok (id : String) (a : album) (rest : List (Except String album))
    (t : AlbumSlice) :
    postAlbums (Context.new id (Except.ok a :: rest)) t
      = ((Context.new id rest).IndentedJSON 201 (Data.one a), t ++ [a]) := by
  simp only [postAlbums, fill_ok (Context.new id (Except.ok a :: rest)) a rest rfl]
  rfl

theorem deleteAlbums_eq (x : String) (body : List (Except String album)) (s : AlbumSlice) :
    deleteAlbums (Context.new x body) s
      = ((Context.new x body).IndentedJSON 200
          (Data.many (s.filter (fun a => decide (a.ID ≠ x)))),
        s.filter (fun a => decide (a.ID ≠ x))) := by
  have hid : (Context.new x body).Param "id" = x := by simp [Context.Param, Context.new]
  simp only [deleteAlbums, hid, delete_loop_eq, List.nil_append]

theorem updateAlbums_one (x : String) (r : album) (rest : List (Except String album))
    (pre : List album) (a : album) (post : List album)
    (hpre : ∀ b ∈ pre, b.ID ≠ x) (ha : a.ID = x) (hpost : ∀ b ∈ post, b.ID ≠ x) :
    (updateAlbums (Context.new x (Except.ok r :: rest)) (pre ++ a :: post)).2
      = pre ++ ⟨x, r.Title, r.Artist, r.Price⟩ :: post := by
  have hid : (Context.new x (Except.ok r :: rest)).Param "id" = x := by
    simp [Context.Param, Context.new]
  simp only [updateAlbums, hid,
    update_loop_one_match x (Context.new x (Except.ok r :: rest)) r rest rfl pre a post []
      hpre ha hpost]
  simp

theorem getAlbums_spec (c : Context) (albums : AlbumSlice) :
    ∃ S, getAlbums c albums = some (c.IndentedJSON 200 (Data.many S), S)
      ∧ List.Pairwise (fun a b => ¬ b.ID < a.ID) S ∧ S.Perm albums := by
  obtain ⟨S, hS, hsorted, hperm⟩ := sort_Sort_spec albums
  exact ⟨S, by simp [getAlbums, hS], List.Pairwise.imp (fun h => not_lt.mpr h) hsorted, hperm⟩

/-! ## Claims -/

/-- C1. For every store state, `getAlbums` returns (it does not panic) and the sequence it
writes to the response is in ascending order of id under string comparison: in every
adjacent pair the first id is not greater than the second, and so is every earlier id
against every later one. The order is lexicographic, not numeric: a store holding the ids
"2" and "10" is listed with "10" first. -/
theorem getAlbums_sorted :
    (∀ (c : Context) (albums : AlbumSlice), ∃ c1 listed,
      getAlbums c albums = some (c1, listed)
        ∧ c1.out = c.out ++ [Data.many listed]
        ∧ List.Chain' (fun a b => ¬ b.ID < a.ID) listed
        ∧ List.Pairwise (fun a b => ¬ b.ID < a.ID) listed)
    ∧ (getAlbums (Context.new "" []) [⟨"2", "B", "", 2⟩, ⟨"10", "A", "", 1⟩]).map
          (fun p => p.1.response)
        = some (some 200, [Data.many [⟨"10", "A", "", 1⟩, ⟨"2", "B", "", 2⟩]]) := by
  constructor
  · intro c albums
    obtain ⟨S, hS, hpw, _⟩ := getAlbums_spec c albums
    exact ⟨_, S, hS, IndentedJSON_out c 200 _ rfl, hpw.chain', hpw⟩
  · have hlt : ("10" : String) < "2" := by rw [String.lt_iff_toList_lt]; decide
    have hsort : sort_Sort [⟨"2", "B", "", 2⟩, ⟨"10", "A", "", 1⟩]
        = some [⟨"10", "A", "", 1⟩, ⟨"2", "B", "", 2⟩] := by
      simp [sort_Sort, AlbumSlice.Len, insertionSort, insertionSort.outer,
        insertionSort.inner, AlbumSlice.Less, AlbumSlice.Swap, hlt]
    rw [getAlbums, hsort]
    rfl

/-- C2. For every store and every id, `getAlbumByID` leaves the store as it is and answers
200 with the first album, in the store's current order, whose id equals the parameter; it
answers 404 with the message "album not found" exactly when no album of the store has that
id. -/
theorem getAlbumByID_first_match (id : String) (body : List (Except String album))
    (albums : AlbumSlice) :
    (getAlbumByID (Context.new id body) albums).2 = albums
    ∧ (∀ pre a post, albums = pre ++ a :: post → (∀ b ∈ pre, b.ID ≠ id) → a.ID = id →
        (getAlbumByID (Context.new id body) albums).1.response = (some 200, [Data.one a]))
    ∧ ((getAlbumByID (Context.new id body) albums).1.response
          = (some 404, [Data.H [("message", "album not found")]])
        ↔ ∀ a ∈ albums, a.ID ≠ id) := by
  refine ⟨getAlbumByID_store _ _, ?_, getAlbumByID_not_found_iff id body albums⟩
  intro pre a post hsplit hpre ha
  subst hsplit
  exact getAlbumByID_found id body pre a post hpre ha

/-- Witness of C2 on the seed store: the lookup of "2" finds the second album. -/
theorem getAlbumByID_first_match_witness :
    (getAlbumByID (Context.new "2" []) init).1.response
      = (some 200, [Data.one ⟨"2", "Jeru", "Gerry Mulligan", 17.99⟩]) :=
  (getAlbumByID_first_match "2" [] init).2.1
    [⟨"1", "Blue Train", "John Coltrane", 56.99⟩] ⟨"2", "Jeru", "Gerry Mulligan", 17.99⟩
    [⟨"3", "Sarah Vaughan and Clifford Brown", "Sarah Vaughan", 39.99⟩] rfl
    (by simp) rfl

/-- C3. For every store `s` and every album `a`, `postAlbums` on a request whose body
decodes to `a` leaves the store equal to `s` with `a` appended as its last element (the
earlier elements unchanged and in the same order, the length larger by one) and answers 201
with `a` itself; this holds for every `s`, also one that already holds an album with the id
of `a`, as the store that ends in `a` itself shows in the last line. -/
theorem postAlbums_appends (id : String) (a : album) (rest : List (Except String album))
    (s : AlbumSlice) :
    (postAlbums (Context.new id (Except.ok a :: rest)) s).2 = s ++ [a]
    ∧ (postAlbums (Context.new id (Except.ok a :: rest)) s).1.response
        = (some 201, [Data.one a])
    ∧ (postAlbums (Context.new id (Except.ok a :: rest)) s).2.length = s.length + 1
    ∧ (postAlbums (Context.new id (Except.ok a :: rest)) s).2.take s.length = s
    ∧ (postAlbums (Context.new id (Except.ok a :: rest)) s).2.getLast? = some a
    ∧ (postAlbums (Context.new id (Except.ok a :: rest)) (s ++ [a])).2 = s ++ [a, a] := by
  rw [postAlbums_ok id a rest s, postAlbums_ok id a rest (s ++ [a])]
  refine ⟨rfl, IndentedJSON_new id rest 201 _ (by decide) rfl, by simp, by simp, by simp,
    by simp⟩

/-- C4. For every store and every id `x`, `deleteAlbums` sets the store to exactly the
albums whose id differs from `x`, in their original relative order, answers 200 with that
same sequence, and when no album has id `x` the store is unchanged and the answer is still
200 with the store. -/
theorem deleteAlbums_filters (x : String) (body : List (Except String album))
    (s : AlbumSlice) :
    (deleteAlbums (Context.new x body) s).2 = s.filter (fun a => decide (a.ID ≠ x))
    ∧ (deleteAlbums (Context.new x body) s).1.response
        = (some 200, [Data.many (s.filter (fun a => decide (a.ID ≠ x)))])
    ∧ ((∀ a ∈ s, a.ID ≠ x) →
        (deleteAlbums (Context.new x body) s).2 = s
        ∧ (deleteAlbums (Context.new x body) s).1.response = (some 200, [Data.many s])) := by
  rw [deleteAlbums_eq]
  refine ⟨rfl, IndentedJSON_new x body 200 _ (by decide) rfl, ?_⟩
  intro hno
  have hfil : s.filter (fun a => decide (a.ID ≠ x)) = s :=
    List.filter_eq_self.mpr (fun a ha => by simpa using hno a ha)
  rw [hfil]
  exact ⟨rfl, IndentedJSON_new x body 200 _ (by decide) rfl⟩

/-- Witness of C4: deleting the absent id "9" from the seed store leaves it unchanged. -/
theorem deleteAlbums_filters_witness :
    (deleteAlbums (Context.new "9" []) init).2 = init
    ∧ (deleteAlbums (Context.new "9" []) init).1.response = (some 200, [Data.many init]) :=
  (deleteAlbums_filters "9" [] init).2.2 (by simp [init])

/-- C5. For every store with exactly one album of id `x` (the album `a`, between `pre` and
`post`) and every replacement `r` decoded from the request body, `updateAlbums` puts at the
position of `a` the album with id `x` and the title, artist and price of `r` (the id of `r`
is ignored), leaves every other album unchanged at its position, and a following
`getAlbumByID` of `x` answers 200 with that album. -/
theorem updateAlbums_replaces_one (x : String) (r : album)
    (rest body2 : List (Except String album)) (pre : List album) (a : album)
    (post : List album) (hpre : ∀ b ∈ pre, b.ID ≠ x) (ha : a.ID = x)
    (hpost : ∀ b ∈ post, b.ID ≠ x) :
    (updateAlbums (Context.new x (Except.ok r :: rest)) (pre ++ a :: post)).2
        = pre ++ ⟨x, r.Title, r.Artist, r.Price⟩ :: post
    ∧ (getAlbumByID (Context.new x body2)
          (updateAlbums (Context.new x (Except.ok r :: rest)) (pre ++ a :: post)).2).1.response
        = (some 200, [Data.one ⟨x, r.Title, r.Artist, r.Price⟩]) := by
  rw [updateAlbums_one x r rest pre a post hpre ha hpost]
  exact ⟨rfl, getAlbumByID_found x body2 pre _ post hpre rfl⟩

/-- Witness of C5 on the seed store: replacing "2" by a body that names itself "99". -/
theorem updateAlbums_replaces_one_witness :
    (updateAlbums (Context.new "2" [Except.ok ⟨"99", "Kind of Blue", "Miles Davis", 20⟩])
        ([⟨"1", "Blue Train", "John Coltrane", 56.99⟩]
          ++ ⟨"2", "Jeru", "Gerry Mulligan", 17.99⟩
            :: [⟨"3", "Sarah Vaughan and Clifford Brown", "Sarah Vaughan", 39.99⟩])).2
        = [⟨"1", "Blue Train", "John Coltrane", 56.99⟩]
          ++ ⟨"2", "Kind of Blue", "Miles Davis", 20⟩
            :: [⟨"3", "Sarah Vaughan and Clifford Brown", "Sarah Vaughan", 39.99⟩]
    ∧ (getAlbumByID (Context.new "2" [])
          (updateAlbums (Context.new "2" [Except.ok ⟨"99", "Kind of Blue", "Miles Davis", 20⟩])
            ([⟨"1", "Blue Train", "John Coltrane", 56.99⟩]
              ++ ⟨"2", "Jeru", "Gerry Mulligan", 17.99⟩
                :: [⟨"3", "Sarah Vaughan and Clifford Brown", "Sarah Vaughan",
                      39.99⟩])).2).1.response
        = (some 200, [Data.one ⟨"2", "Kind of Blue", "Miles Davis", 20⟩]) :=
  updateAlbums_replaces_one "2" ⟨"99", "Kind of Blue", "Miles Davis", 20⟩ [] []
    [⟨"1", "Blue Train", "John Coltrane", 56.99⟩] ⟨"2", "Jeru", "Gerry Mulligan", 17.99⟩
    [⟨"3", "Sarah Vaughan and Clifford Brown", "Sarah Vaughan", 39.99⟩]
    (by simp) rfl (by simp)

/-- C6. For every store, every request whose id parameter no album of the store carries and
whatever its body, `updateAlbums` leaves the store sequence equal to the original, so
`getAlbums` gives the same result on the store before and after the call, and no error is
signalled: the context is returned untouched (the body is not read, nothing is written to
the response). -/
theorem updateAlbums_absent_id (c : Context) (s : AlbumSlice)
    (habsent : ∀ a ∈ s, a.ID ≠ c.id) :
    (updateAlbums c s).2 = s
    ∧ (updateAlbums c s).1 = c
    ∧ (∀ c0, getAlbums c0 (updateAlbums c s).2 = getAlbums c0 s) := by
  have hupd : updateAlbums c s = (c, s) := by
    have hid : c.Param "id" = c.id := by simp [Context.Param]
    simp only [updateAlbums, hid, update_loop_no_match c.id c s [] habsent]
    simp
  rw [hupd]
  exact ⟨rfl, rfl, fun _ => rfl⟩

/-- Witness of C6 on the seed store with the absent id "9": the store is the seed store and
the response is still unwritten. -/
theorem updateAlbums_absent_id_witness :
    (updateAlbums (Context.new "9" [Except.ok ⟨"9", "T", "A", 1⟩]) init).2 = init
    ∧ (updateAlbums (Context.new "9" [Except.ok ⟨"9", "T", "A", 1⟩]) init).1
        = Context.new "9" [Except.ok ⟨"9", "T", "A", 1⟩]
    ∧ (∀ c0, getAlbums c0 (updateAlbums (Context.new "9" [Except.ok ⟨"9", "T", "A", 1⟩]) init).2
        = getAlbums c0 init) :=
  updateAlbums_absent_id (Context.new "9" [Except.ok ⟨"9", "T", "A", 1⟩]) init
    (by simp [init, Context.new])

/-- C7, as stated, fails: on a store that already holds an album with id "1", the lookup of
"1" after the insert of another album with id "1" answers with the older album, not with
the album just inserted. -/
theorem find_after_insert_counterexample :
    (getAlbumByID (Context.new "1" [])
        (postAlbums (Context.new "" [Except.ok ⟨"1", "New", "N", 2⟩])
          [⟨"1", "Old", "O", 1⟩]).2).1.response
      = (some 200, [Data.one ⟨"1", "Old", "O", 1⟩])
    ∧ (getAlbumByID (Context.new "1" [])
        (postAlbums (Context.new "" [Except.ok ⟨"1", "New", "N", 2⟩])
          [⟨"1", "Old", "O", 1⟩]).2).1.response
      ≠ (some 200, [Data.one ⟨"1", "New", "N", 2⟩]) := by
  rw [postAlbums_ok]
  have h := getAlbumByID_found "1" [] [] ⟨"1", "Old", "O", 1⟩ [⟨"1", "New", "N", 2⟩]
    (by simp) rfl
  refine ⟨h, ?_⟩
  rw [show ([⟨"1", "Old", "O", 1⟩] ++ [⟨"1", "New", "N", 2⟩] : List album)
    = [] ++ ⟨"1", "Old", "O", 1⟩ :: [⟨"1", "New", "N", 2⟩] from rfl, h]
  decide

/-- C7, amended. For every store `s` that holds no album with the id of `a`, `getAlbumByID`
of that id after `postAlbums` of `a` on `s` answers 200 with the album `a` just inserted. -/
theorem find_after_insert (id : String) (a : album) (rest body2 : List (Except String album))
    (s : AlbumSlice) (hfresh : ∀ b ∈ s, b.ID ≠ a.ID) :
    (getAlbumByID (Context.new a.ID body2)
        (postAlbums (Context.new id (Except.ok a :: rest)) s).2).1.response
      = (some 200, [Data.one a]) := by
  rw [postAlbums_ok]
  exact getAlbumByID_found a.ID body2 s a [] hfresh rfl

/-- Witness of C7, amended: the seed store holds no album with id "4". -/
theorem find_after_insert_witness :
    (getAlbumByID (Context.new "4" [])
        (postAlbums (Context.new "" [Except.ok ⟨"4", "B Side", "X", 10⟩]) init).2).1.response
      = (some 200, [Data.one ⟨"4", "B Side", "X", 10⟩]) :=
  find_after_insert "" ⟨"4", "B Side", "X", 10⟩ [] [] init (by simp [init])

/-- C8. For every store and every id `x`, present or not, carried by one album or by
several, `getAlbumByID` of `x` after `deleteAlbums` of `x` answers 404 with the message
"album not found". -/
theorem find_after_delete (x : String) (body1 body2 : List (Except String album))
    (s : AlbumSlice) :
    (getAlbumByID (Context.new x body2) (deleteAlbums (Context.new x body1) s).2).1.response
      = (some 404, [Data.H [("message", "album not found")]]) := by
  rw [deleteAlbums_eq]
  refine (getAlbumByID_not_found_iff x body2 _).mpr ?_
  intro a ha
  simpa using (List.mem_filter.mp ha).2


/-- C9, as stated, fails: `getAlbums` on the store holding the ids "2", "1" in that order
leaves the store holding "1", "2": the store after the call is not the store before it. -/
theorem getAlbums_reorders_store_counterexample :
    (getAlbums (Context.new "" []) [⟨"2", "B", "", 2⟩, ⟨"1", "A", "", 1⟩]).map (fun p => p.2)
      = some [⟨"1", "A", "", 1⟩, ⟨"2", "B", "", 2⟩]
    ∧ (getAlbums (Context.new "" []) [⟨"2", "B", "", 2⟩, ⟨"1", "A", "", 1⟩]).map (fun p => p.2)
      ≠ some [⟨"2", "B", "", 2⟩, ⟨"1", "A", "", 1⟩] := by
  have hlt : ("1" : String) < "2" := by rw [String.lt_iff_toList_lt]; decide
  have hsort : sort_Sort [⟨"2", "B", "", 2⟩, ⟨"1", "A", "", 1⟩]
      = some [⟨"1", "A", "", 1⟩, ⟨"2", "B", "", 2⟩] := by
    simp [sort_Sort, AlbumSlice.Len, insertionSort, insertionSort.outer,
      insertionSort.inner, AlbumSlice.Less, AlbumSlice.Swap, hlt]
  rw [getAlbums, hsort]
  exact ⟨rfl, by decide⟩

/-- C9, amended. `getAlbums` changes the store only by reordering it: for every store state
the call returns, the store after it is a permutation of the store before (the same albums,
each as many times), and it is the sequence written to the response, in ascending order of
id; a following `getAlbumByID` scans the albums in that order. -/
theorem getAlbums_permutes_store (c : Context) (albums : AlbumSlice) :
    ∃ c1 albums1, getAlbums c albums = some (c1, albums1)
      ∧ albums1.Perm albums
      ∧ albums1.length = albums.length
      ∧ c1.out = c.out ++ [Data.many albums1]
      ∧ List.Chain' (fun a b => ¬ b.ID < a.ID) albums1 := by
  obtain ⟨S, hS, hpw, hperm⟩ := getAlbums_spec c albums
  exact ⟨_, S, hS, hperm, hperm.length_eq, IndentedJSON_out c 200 _ rfl, hpw.chain'⟩

/-- C10, the code at the failing input. The store holds two albums with id "1" and the
request carries one well-formed body: `updateAlbums` gives the first of them the title,
artist and price of the body, and the second one the zero values, because each match decodes
the request body again and the body has been consumed by the first decoding; that second
decoding also sets the response status to 400. -/
theorem updateAlbums_second_match_blanked :
    (updateAlbums (Context.new "1" [Except.ok ⟨"9", "New", "N", 5⟩])
        [⟨"1", "A", "a", 1⟩, ⟨"2", "M", "m", 3⟩, ⟨"1", "B", "b", 2⟩]).2
      = [⟨"1", "New", "N", 5⟩, ⟨"2", "M", "m", 3⟩, ⟨"1", "", "", 0⟩]
    ∧ (updateAlbums (Context.new "1" [Except.ok ⟨"9", "New", "N", 5⟩])
        [⟨"1", "A", "a", 1⟩, ⟨"2", "M", "m", 3⟩, ⟨"1", "B", "b", 2⟩]).1.response
      = (some 400, []) := by
  constructor <;> rfl


/-! ## Further auxiliary facts -/

theorem fill_err_none (c : Context) : (fillNewAlbumFromRequest c).1.2 = none := by
  unfold fillNewAlbumFromRequest
  cases h : c.BindJSON.1.2 with
  | none =>
    have : c.BindJSON = ((c.BindJSON.1.1, none), c.BindJSON.2) := by rw [← h]
    rw [this]
  | some e =>
    have : c.BindJSON = ((c.BindJSON.1.1, some e), c.BindJSON.2) := by rw [← h]
    rw [this]

theorem fill_fail (c : Context) (h : c.BindJSON.1.2 ≠ none) :
    (fillNewAlbumFromRequest c).1.1 = album.zero := by
  unfold fillNewAlbumFromRequest
  cases h1 : c.BindJSON.1.2 with
  | none => exact absurd h1 h
  | some e =>
    have : c.BindJSON = ((c.BindJSON.1.1, some e), c.BindJSON.2) := by rw [← h1]
    rw [this]

theorem postAlbums_always (c : Context) (s : AlbumSlice) :
    postAlbums c s
      = ((fillNewAlbumFromRequest c).2.IndentedJSON 201
            (Data.one (fillNewAlbumFromRequest c).1.1),
          s ++ [(fillNewAlbumFromRequest c).1.1]) := by
  have h := fill_err_none c
  unfold postAlbums
  have : fillNewAlbumFromRequest c
      = (((fillNewAlbumFromRequest c).1.1, none), (fillNewAlbumFromRequest c).2) := by
    rw [← h]
  rw [this]


theorem update_loop_total (id : String) (s : List album) :
    ∀ (c : Context) (acc : List album), ∃ upd c1,
      updateAlbums.loop id c s acc = (some (acc ++ upd), c1)
        ∧ List.Forall₂ (fun a b => b.ID = a.ID ∧ (a.ID ≠ id → b = a)) s upd := by
  induction s with
  | nil =>
    intro c acc
    exact ⟨[], c, by simp [updateAlbums.loop], List.Forall₂.nil⟩
  | cons a rest ih =>
    intro c acc
    by_cases ha : a.ID = id
    · have hfill : fillNewAlbumFromRequest c
          = (((fillNewAlbumFromRequest c).1.1, none), (fillNewAlbumFromRequest c).2) := by
        rw [← fill_err_none c]
      obtain ⟨upd, c1, hrun, hrel⟩ := ih (fillNewAlbumFromRequest c).2
        (acc ++ [{ (fillNewAlbumFromRequest c).1.1 with ID := id }])
      refine ⟨{ (fillNewAlbumFromRequest c).1.1 with ID := id } :: upd, c1, ?_, ?_⟩
      · rw [updateAlbums.loop, if_neg (by simpa using ha), hfill]
        simp only []
        rw [hrun]
        simp
      · exact List.Forall₂.cons ⟨ha.symm, fun h => absurd ha h⟩ hrel
    · obtain ⟨upd, c1, hrun, hrel⟩ := ih c (acc ++ [a])
      refine ⟨a :: upd, c1, ?_, ?_⟩
      · rw [updateAlbums.loop, if_pos ha, hrun]
        simp
      · exact List.Forall₂.cons ⟨rfl, fun _ => rfl⟩ hrel

theorem updateAlbums_total (c : Context) (s : AlbumSlice) :
    List.Forall₂ (fun a b => b.ID = a.ID ∧ (a.ID ≠ c.id → b = a)) s (updateAlbums c s).2 := by
  have hid : c.Param "id" = c.id := by simp [Context.Param]
  obtain ⟨upd, c1, hrun, hrel⟩ := update_loop_total c.id s c []
  simp only [updateAlbums, hid, hrun]
  simpa using hrel

theorem updateAlbums_ids (c : Context) (s : AlbumSlice) :
    (updateAlbums c s).2.map (fun a => a.ID) = s.map (fun a => a.ID) := by
  have h := updateAlbums_total c s
  generalize (updateAlbums c s).2 = t at h
  induction h with
  | nil => rfl
  | cons hab _ ih => simp [hab.1, ih]


/-- C11, as stated, fails: `postAlbums` on a request whose body does not decode appends the
zero-value album to the seed store and writes it to the response body, but the status line
the client receives is the 400 written by `BindJSON` when the decoding failed, not 201. -/
theorem postAlbums_malformed_counterexample :
    (postAlbums (Context.new "" [Except.error "invalid character"]) init).2
      = init ++ [⟨"", "", "", 0⟩]
    ∧ (postAlbums (Context.new "" [Except.error "invalid character"]) init).1.response
      = (some 400, [Data.one ⟨"", "", "", 0⟩])
    ∧ (postAlbums (Context.new "" [Except.error "invalid character"]) init).1.response.1
      ≠ some 201 := by
  refine ⟨rfl, rfl, ?_⟩
  rw [show (postAlbums (Context.new "" [Except.error "invalid character"]) init).1.response.1
    = some 400 from rfl]
  decide

/-- C11, amended. `fillNewAlbumFromRequest` never reports an error: whatever the request, its
error result is nil, and when the body fails to decode (a decoding error, or nothing left to
decode) its album result is the zero-value album. Consequently `postAlbums` with such a body
still appends a zero-value album to the store and writes it to the response body, under the
status 400 that the failed `BindJSON` has already sent (the 201 of the handler comes too
late); and the early returns of `postAlbums` and `updateAlbums` are never taken:
`postAlbums` always appends what the helper returned and the loop of `updateAlbums` always
runs to its end. -/
theorem fillNewAlbumFromRequest_swallows_error :
    (∀ c : Context, (fillNewAlbumFromRequest c).1.2 = none)
    ∧ (∀ (c : Context) (e : String) (rest : List (Except String album)),
        (fillNewAlbumFromRequest { c with body := Except.error e :: rest }).1.1 = album.zero)
    ∧ (∀ c : Context, (fillNewAlbumFromRequest { c with body := [] }).1.1 = album.zero)
    ∧ album.zero = ⟨"", "", "", 0⟩
    ∧ (∀ (id e : String) (rest : List (Except String album)) (s : AlbumSlice),
        (postAlbums (Context.new id (Except.error e :: rest)) s).2 = s ++ [album.zero]
        ∧ (postAlbums (Context.new id (Except.error e :: rest)) s).1.response
            = (some 400, [Data.one album.zero]))
    ∧ (∀ (id : String) (s : AlbumSlice),
        (postAlbums (Context.new id []) s).2 = s ++ [album.zero]
        ∧ (postAlbums (Context.new id []) s).1.response = (some 400, [Data.one album.zero]))
    ∧ (∀ (c : Context) (s : AlbumSlice),
        (postAlbums c s).2 = s ++ [(fillNewAlbumFromRequest c).1.1])
    ∧ (∀ (id : String) (c : Context) (s acc : List album),
        (updateAlbums.loop id c s acc).1 ≠ none) := by
  refine ⟨fill_err_none, fun _ _ _ => rfl, fun _ => rfl, rfl, fun _ _ _ _ => ⟨rfl, rfl⟩,
    fun _ _ => ⟨rfl, rfl⟩, ?_, ?_⟩
  · intro c s
    rw [postAlbums_always]
  · intro id c s acc
    obtain ⟨upd, c1, hrun, _⟩ := update_loop_total id s c acc
    rw [hrun]
    simp


theorem sort_Sort_init : sort_Sort init = some init := by
  have h21 : ¬ ("2" : String) < "1" := by rw [String.lt_iff_toList_lt]; decide
  have h32 : ¬ ("3" : String) < "2" := by rw [String.lt_iff_toList_lt]; decide
  simp [sort_Sort, init, AlbumSlice.Len, insertionSort, insertionSort.outer,
    insertionSort.inner, AlbumSlice.Less, h21, h32]

theorem sort_Sort_134 (artist : String) (price : Rat) :
    sort_Sort [⟨"1", "Blue Train", "John Coltrane", 56.99⟩,
        ⟨"3", "Sarah Vaughan and Clifford Brown", "Sarah Vaughan", 39.99⟩,
        ⟨"4", "B Side", artist, price⟩]
      = some [⟨"1", "Blue Train", "John Coltrane", 56.99⟩,
        ⟨"3", "Sarah Vaughan and Clifford Brown", "Sarah Vaughan", 39.99⟩,
        ⟨"4", "B Side", artist, price⟩] := by
  have h31 : ¬ ("3" : String) < "1" := by rw [String.lt_iff_toList_lt]; decide
  have h43 : ¬ ("4" : String) < "3" := by rw [String.lt_iff_toList_lt]; decide
  simp [sort_Sort, AlbumSlice.Len, insertionSort, insertionSort.outer,
    insertionSort.inner, AlbumSlice.Less, h31, h43]

/-- C12. From the seed store of `init`: `getAlbums` answers 200 with the ids "1", "2", "3" in
that order and leaves the seed store; `getAlbumByID` of "2" answers 200 with the album
titled "Jeru" by "Gerry Mulligan"; `deleteAlbums` of "2" answers 200 with a list of ids
"1", "3"; and after `postAlbums` of an album with id "4" and title "B Side" (any artist and
price) on that store, `getAlbums` answers 200 with the ids "1", "3", "4". -/
theorem seed_scenario (artist : String) (price : Rat) :
    ∃ c1 s1 c4 s4,
      getAlbums (Context.new "" []) init = some (c1, s1)
      ∧ s1 = init
      ∧ c1.response = (some 200, [Data.many s1])
      ∧ s1.map (fun a => a.ID) = ["1", "2", "3"]
      ∧ (getAlbumByID (Context.new "2" []) s1).1.response
          = (some 200, [Data.one ⟨"2", "Jeru", "Gerry Mulligan", 17.99⟩])
      ∧ (getAlbumByID (Context.new "2" []) s1).2 = s1
      ∧ (deleteAlbums (Context.new "2" []) s1).1.response
          = (some 200, [Data.many (deleteAlbums (Context.new "2" []) s1).2])
      ∧ (deleteAlbums (Context.new "2" []) s1).2.map (fun a => a.ID) = ["1", "3"]
      ∧ getAlbums (Context.new "" [])
            (postAlbums (Context.new "" [Except.ok ⟨"4", "B Side", artist, price⟩])
              (deleteAlbums (Context.new "2" []) s1).2).2
          = some (c4, s4)
      ∧ c4.response = (some 200, [Data.many s4])
      ∧ s4.map (fun a => a.ID) = ["1", "3", "4"] := by
  have hdel : (deleteAlbums (Context.new "2" []) init).2
      = [⟨"1", "Blue Train", "John Coltrane", 56.99⟩,
          ⟨"3", "Sarah Vaughan and Clifford Brown", "Sarah Vaughan", 39.99⟩] := by
    rw [deleteAlbums_eq]
    simp [init]
  have hpost : (postAlbums (Context.new "" [Except.ok ⟨"4", "B Side", artist, price⟩])
        (deleteAlbums (Context.new "2" []) init).2).2
      = [⟨"1", "Blue Train", "John Coltrane", 56.99⟩,
          ⟨"3", "Sarah Vaughan and Clifford Brown", "Sarah Vaughan", 39.99⟩,
          ⟨"4", "B Side", artist, price⟩] := by
    rw [postAlbums_ok, hdel]
    rfl
  refine ⟨(Context.new "" []).IndentedJSON 200 (Data.many init), init,
    (Context.new "" []).IndentedJSON 200
      (Data.many [⟨"1", "Blue Train", "John Coltrane", 56.99⟩,
        ⟨"3", "Sarah Vaughan and Clifford Brown", "Sarah Vaughan", 39.99⟩,
        ⟨"4", "B Side", artist, price⟩]),
    [⟨"1", "Blue Train", "John Coltrane", 56.99⟩,
      ⟨"3", "Sarah Vaughan and Clifford Brown", "Sarah Vaughan", 39.99⟩,
      ⟨"4", "B Side", artist, price⟩],
    ?_, rfl, rfl, rfl, ?_, getAlbumByID_store _ _, ?_, ?_, ?_, rfl, rfl⟩
  · rw [getAlbums, sort_Sort_init]
  · exact getAlbumByID_found "2" [] [⟨"1", "Blue Train", "John Coltrane", 56.99⟩]
      ⟨"2", "Jeru", "Gerry Mulligan", 17.99⟩
      [⟨"3", "Sarah Vaughan and Clifford Brown", "Sarah Vaughan", 39.99⟩] (by simp) rfl
  · rw [deleteAlbums_eq]
    exact IndentedJSON_new "2" [] 200 _ (by decide) rfl
  · rw [hdel]; rfl
  · rw [hpost, getAlbums, sort_Sort_134]


theorem deleteAlbums_store (c : Context) (s : AlbumSlice) :
    (deleteAlbums c s).2 = s.filter (fun a => decide (a.ID ≠ c.id)) := by
  have hid : c.Param "id" = c.id := by simp [Context.Param]
  simp only [deleteAlbums, hid, delete_loop_eq, List.nil_append]

theorem forall2_getElem {R : album → album → Prop} {s t : List album}
    (h : List.Forall₂ R s t) :
    ∀ (i : Nat) (a : album), s[i]? = some a → ∃ b, t[i]? = some b ∧ R a b := by
  induction h with
  | nil => intro i a ha; simp at ha
  | cons hab _ ih =>
    intro i a ha
    cases i with
    | zero =>
      simp at ha
      subst ha
      exact ⟨_, by simp, hab⟩
    | succ i =>
      simp at ha
      obtain ⟨b, hb, hR⟩ := ih i a ha
      exact ⟨b, by simpa using hb, hR⟩

theorem loop_some_mem (c : Context) (id : String) (s : List album) (c1 : Context)
    (h : getAlbumByID.loop c id s = some c1) :
    ∃ a ∈ s, a.ID = id ∧ c1 = c.IndentedJSON 200 (Data.one a) := by
  induction s with
  | nil => simp [getAlbumByID.loop] at h
  | cons b s ih =>
    by_cases hb : b.ID = id
    · simp [getAlbumByID.loop, hb] at h
      exact ⟨b, by simp, hb, h.symm⟩
    · simp only [getAlbumByID.loop, hb, if_false] at h
      obtain ⟨a, ha, hid, hc⟩ := ih h
      exact ⟨a, by simp [ha], hid, hc⟩

theorem loop_perm (c : Context) (id : String) (s t : List album) (hs : UniqueIDs s)
    (hperm : t.Perm s) :
    getAlbumByID.loop c id t = getAlbumByID.loop c id s := by
  cases hl : getAlbumByID.loop c id s with
  | none =>
    have hno := (loop_none_iff c id s).mp hl
    exact (loop_none_iff c id t).mpr (fun a ha => hno a (hperm.subset ha))
  | some c1 =>
    obtain ⟨a, ha, haid, hc1⟩ := loop_some_mem c id s c1 hl
    cases ht : getAlbumByID.loop c id t with
    | none =>
      exact absurd haid ((loop_none_iff c id t).mp ht a (hperm.symm.subset ha))
    | some c2 =>
      obtain ⟨b, hb, hbid, hc2⟩ := loop_some_mem c id t c2 ht
      have hab : b = a :=
        List.inj_on_of_nodup_map hs (hperm.subset hb) ha (hbid.trans haid.symm)
      rw [hc2, hc1, hab]

theorem getAlbumByID_perm (c : Context) (s t : List album) (hs : UniqueIDs s)
    (hperm : t.Perm s) :
    (getAlbumByID c t).1 = (getAlbumByID c s).1 := by
  simp only [getAlbumByID, loop_perm c (c.Param "id") s t hs hperm]
  cases getAlbumByID.loop c (c.Param "id") s <;> rfl


/-- C13. For every store state, `getAlbums` returns and the sequence it writes to the
response is the full collection: a permutation of the store, of the same length, in which
every album occurs exactly as often as in the store. Nothing is dropped, added or
deduplicated, also when albums share an id: a store holding one album twice is listed with
both copies. -/
theorem getAlbums_full_collection :
    (∀ (c : Context) (albums : AlbumSlice), ∃ c1 listed,
      getAlbums c albums = some (c1, listed)
        ∧ c1.out = c.out ++ [Data.many listed]
        ∧ listed.Perm albums
        ∧ listed.length = albums.length
        ∧ ∀ a : album, listed.count a = albums.count a)
    ∧ (getAlbums (Context.new "" []) [⟨"1", "A", "", 1⟩, ⟨"1", "A", "", 1⟩]).map
          (fun p => p.1.response)
        = some (some 200, [Data.many [⟨"1", "A", "", 1⟩, ⟨"1", "A", "", 1⟩]]) := by
  constructor
  · intro c albums
    obtain ⟨S, hS, _, hperm⟩ := getAlbums_spec c albums
    exact ⟨_, S, hS, IndentedJSON_out c 200 _ rfl, hperm, hperm.length_eq,
      fun a => hperm.count_eq a⟩
  · have hlt : ¬ ("1" : String) < "1" := by rw [String.lt_iff_toList_lt]; decide
    have hsort : sort_Sort [⟨"1", "A", "", 1⟩, ⟨"1", "A", "", 1⟩]
        = some [⟨"1", "A", "", 1⟩, ⟨"1", "A", "", 1⟩] := by
      simp [sort_Sort, AlbumSlice.Len, insertionSort, insertionSort.outer,
        insertionSort.inner, AlbumSlice.Less, hlt]
    rw [getAlbums, hsort]
    rfl

/-- C15. Uniqueness of ids holds for the seed store of `init`; from every store that
satisfies it, `getAlbums`, `deleteAlbums` and `updateAlbums` give a store that satisfies it,
whatever the request, and so does `postAlbums` whenever the id of the album it inserts (the
album returned by `fillNewAlbumFromRequest`, which is the decoded album when the body is
well formed) is not yet in the store; `postAlbums` of an album whose id is already in the
store gives a store that violates it. -/
theorem unique_ids_invariant :
    UniqueIDs init
    ∧ (∀ (c : Context) (s : AlbumSlice), UniqueIDs s →
        ∃ c1 s1, getAlbums c s = some (c1, s1) ∧ UniqueIDs s1)
    ∧ (∀ (c : Context) (s : AlbumSlice), UniqueIDs s → UniqueIDs (deleteAlbums c s).2)
    ∧ (∀ (c : Context) (s : AlbumSlice), UniqueIDs s → UniqueIDs (updateAlbums c s).2)
    ∧ (∀ (id : String) (a : album) (rest : List (Except String album)),
        (fillNewAlbumFromRequest (Context.new id (Except.ok a :: rest))).1.1 = a)
    ∧ (∀ (c : Context) (s : AlbumSlice), UniqueIDs s →
        (∀ b ∈ s, b.ID ≠ (fillNewAlbumFromRequest c).1.1.ID) →
        UniqueIDs (postAlbums c s).2)
    ∧ (∀ (c : Context) (s : AlbumSlice),
        (∃ b ∈ s, b.ID = (fillNewAlbumFromRequest c).1.1.ID) →
        ¬ UniqueIDs (postAlbums c s).2) := by
  refine ⟨by simp [UniqueIDs, init], ?_, ?_, ?_, fun _ _ _ => rfl, ?_, ?_⟩
  · intro c s hs
    obtain ⟨S, hS, _, hperm⟩ := getAlbums_spec c s
    have hmap : (S.map (fun a => a.ID)).Perm (s.map (fun a => a.ID)) := hperm.map _
    exact ⟨_, S, hS, hmap.nodup_iff.mpr hs⟩
  · intro c s hs
    rw [deleteAlbums_store]
    exact List.Nodup.sublist (List.Sublist.map _ (List.filter_sublist s)) hs
  · intro c s hs
    unfold UniqueIDs
    rw [updateAlbums_ids]
    exact hs
  · intro c s hs hnew
    rw [postAlbums_always]
    unfold UniqueIDs at hs ⊢
    simp only [List.map_append, List.map_cons, List.map_nil]
    refine List.Nodup.append hs (List.nodup_singleton _) ?_
    intro x hx hx1
    obtain ⟨b, hb, hbx⟩ := List.mem_map.mp hx
    have : x = (fillNewAlbumFromRequest c).1.1.ID := by simpa using hx1
    exact hnew b hb (hbx.trans this)
  · rintro c s ⟨b, hb, hbid⟩ hu
    rw [postAlbums_always] at hu
    unfold UniqueIDs at hu
    simp only [List.map_append, List.map_cons, List.map_nil] at hu
    have hdis := (List.nodup_append.mp hu).2.2
    exact hdis (List.mem_map.mpr ⟨b, hb, hbid⟩) (by simp)

/-- Witness of C15: inserting id "4" into the seed store keeps the ids unique, inserting id
"2" into it does not. -/
theorem unique_ids_invariant_witness :
    UniqueIDs (postAlbums (Context.new "" [Except.ok ⟨"4", "B Side", "X", 10⟩]) init).2
    ∧ ¬ UniqueIDs (postAlbums (Context.new "" [Except.ok ⟨"2", "Again", "Y", 11⟩]) init).2 :=
  ⟨unique_ids_invariant.2.2.2.2.2.1 (Context.new "" [Except.ok ⟨"4", "B Side", "X", 10⟩]) init
      unique_ids_invariant.1
      (by
        rw [show (fillNewAlbumFromRequest
            (Context.new "" [Except.ok ⟨"4", "B Side", "X", 10⟩])).1.1.ID = "4" from rfl]
        simp [init]),
    unique_ids_invariant.2.2.2.2.2.2 (Context.new "" [Except.ok ⟨"2", "Again", "Y", 11⟩]) init
      ⟨⟨"2", "Jeru", "Gerry Mulligan", 17.99⟩, by simp [init], rfl⟩⟩


/-- C16. For every store, every id parameter and every request body, `updateAlbums` keeps
the length of the store and the id at every position: the sequence of ids after the call is
the sequence before it, an album whose id differs from the parameter stays what it was at
its position, and so only the title, artist and price of positions whose id equals the
parameter may differ. -/
theorem updateAlbums_preserves_ids (c : Context) (s : AlbumSlice) :
    (updateAlbums c s).2.length = s.length
    ∧ (updateAlbums c s).2.map (fun a => a.ID) = s.map (fun a => a.ID)
    ∧ (∀ (i : Nat) (a : album), s[i]? = some a →
        ∃ b, (updateAlbums c s).2[i]? = some b ∧ b.ID = a.ID ∧ (a.ID ≠ c.id → b = a)) := by
  have hrel := updateAlbums_total c s
  refine ⟨hrel.length_eq.symm, updateAlbums_ids c s, ?_⟩
  intro i a ha
  obtain ⟨b, hb, hR⟩ := forall2_getElem hrel i a ha
  exact ⟨b, hb, hR.1, hR.2⟩

/-- Witness of C16 on the seed store: replacing "2" keeps the first album at position 0. -/
theorem updateAlbums_preserves_ids_witness :
    ∃ b, (updateAlbums (Context.new "2" [Except.ok ⟨"9", "T", "A", 1⟩]) init).2[0]? = some b
      ∧ b.ID = "1"
      ∧ (("1" : String) ≠ "2" → b = ⟨"1", "Blue Train", "John Coltrane", 56.99⟩) :=
  (updateAlbums_preserves_ids (Context.new "2" [Except.ok ⟨"9", "T", "A", 1⟩]) init).2.2 0
    ⟨"1", "Blue Train", "John Coltrane", 56.99⟩ rfl

/-- C17. For every store in which all ids are distinct and every lookup request, the answer
of `getAlbumByID` is the same on the store left by `getAlbums` (which returns, and reorders
the store in place) as on the store before it: the same album, or the same not-found
answer. -/
theorem find_unaffected_by_list (c0 c : Context) (s : AlbumSlice) (hs : UniqueIDs s) :
    ∃ c1 s1, getAlbums c0 s = some (c1, s1)
      ∧ (getAlbumByID c s1).1 = (getAlbumByID c s).1
      ∧ (getAlbumByID c s1).1.response = (getAlbumByID c s).1.response := by
  obtain ⟨S, hS, _, hperm⟩ := getAlbums_spec c0 s
  have h := getAlbumByID_perm c s S hs hperm
  exact ⟨_, S, hS, h, by rw [h]⟩

/-- Witness of C17: on the store holding the distinct ids "2", "1", which `getAlbums`
reorders, the lookup of "2" answers the same before and after. -/
theorem find_unaffected_by_list_witness :
    ∃ c1 s1, getAlbums (Context.new "" []) [⟨"2", "B", "", 2⟩, ⟨"1", "A", "", 1⟩]
        = some (c1, s1)
      ∧ (getAlbumByID (Context.new "2" []) s1).1
          = (getAlbumByID (Context.new "2" []) [⟨"2", "B", "", 2⟩, ⟨"1", "A", "", 1⟩]).1
      ∧ (getAlbumByID (Context.new "2" []) s1).1.response
          = (getAlbumByID (Context.new "2" []) [⟨"2", "B", "", 2⟩, ⟨"1", "A", "", 1⟩]).1.response :=
  find_unaffected_by_list (Context.new "" []) (Context.new "2" [])
    [⟨"2", "B", "", 2⟩, ⟨"1", "A", "", 1⟩] (by simp [UniqueIDs])

end GinAlbums
